import Mathlib

/-!
Verification development for the `b_stb` stream-to-buffer library.

The library drains an asynchronous byte source into memory:

* `StreamConverter.body_to_bytes` / `body_to_string` pull byte chunks from a
  hyper `Body` until exhaustion, concatenating them; the string variant runs
  one whole-buffer UTF-8 validation at the end (`String::from_utf8`).
* `StreamConverter.to_bytes` / `to_string` repeatedly read up to
  `buffer_size` bytes from a generic async reader; the string variant
  validates each read chunk separately.
* `process_stream` is a stand-alone copy of the `body_to_bytes` loop.
* `util::bytes_to_string` and `util::concat_bytes` are pure helpers.

Bytes are modelled as `Nat` (values below 256 in any reachable input), byte
buffers as `List Nat`, and Rust `String`s as lists of Unicode scalar values.
A hyper `Body` is modelled as the finite sequence of poll results it yields:
each pull is either a chunk (`Except.ok`) or a transport failure
(`Except.error`, carrying an opaque error id).  An async reader is modelled
as the finite sequence of results its successive `read` calls produce; the
`AsyncRead` contract that a read fills at most the caller-supplied buffer is
the side condition `readerFits`.
-/

namespace BStb

/-- Decode one UTF-8 encoded scalar value from the front of a byte list,
following the ranges of Unicode Table 3-7 that Rust's `String::from_utf8`
enforces: ASCII; two-byte leads `0xC2..0xDF`; three-byte leads
`0xE0..0xEF` with overlong and surrogate rejection; four-byte leads
`0xF0..0xF4` with overlong and `> U+10FFFF` rejection.  Returns the scalar
value and the remaining bytes, or `none` at a malformed prefix. -/
def decodeOne : List Nat → Option (Nat × List Nat)
  | [] => none
  | b0 :: rest =>
    if b0 < 0x80 then
      some (b0, rest)
    else if b0 < 0xC2 then
      none
    else if b0 < 0xE0 then
      match rest with
      | b1 :: rest1 =>
        if 0x80 ≤ b1 ∧ b1 < 0xC0 then
          some ((b0 - 0xC0) * 0x40 + (b1 - 0x80), rest1)
        else none
      | [] => none
    else if b0 < 0xF0 then
      match rest with
      | b1 :: b2 :: rest2 =>
        if 0x80 ≤ b1 ∧ b1 < 0xC0 ∧ 0x80 ≤ b2 ∧ b2 < 0xC0 then
          if 0x800 ≤ (b0 - 0xE0) * 0x1000 + (b1 - 0x80) * 0x40 + (b2 - 0x80) ∧
              ((b0 - 0xE0) * 0x1000 + (b1 - 0x80) * 0x40 + (b2 - 0x80) < 0xD800 ∨
                0xE000 ≤ (b0 - 0xE0) * 0x1000 + (b1 - 0x80) * 0x40 + (b2 - 0x80)) then
            some ((b0 - 0xE0) * 0x1000 + (b1 - 0x80) * 0x40 + (b2 - 0x80), rest2)
          else none
        else none
      | _ => none
    else if b0 < 0xF5 then
      match rest with
      | b1 :: b2 :: b3 :: rest3 =>
        if 0x80 ≤ b1 ∧ b1 < 0xC0 ∧ 0x80 ≤ b2 ∧ b2 < 0xC0 ∧ 0x80 ≤ b3 ∧ b3 < 0xC0 then
          if 0x10000 ≤ (b0 - 0xF0) * 0x40000 + (b1 - 0x80) * 0x1000 + (b2 - 0x80) * 0x40 + (b3 - 0x80) ∧
              (b0 - 0xF0) * 0x40000 + (b1 - 0x80) * 0x1000 + (b2 - 0x80) * 0x40 + (b3 - 0x80) < 0x110000 then
            some ((b0 - 0xF0) * 0x40000 + (b1 - 0x80) * 0x1000 + (b2 - 0x80) * 0x40 + (b3 - 0x80), rest3)
          else none
        else none
      | _ => none
    else none

/-- Whole-buffer UTF-8 decoding, fuelled so that it is structurally
recursive; `utf8Decode` supplies the length of the buffer as fuel, which is
always sufficient because `decodeOne` consumes at least one byte. -/
def utf8DecodeFuel : Nat → List Nat → Option (List Nat)
  | _, [] => some []
  | 0, _ :: _ => none
  | fuel + 1, b :: bs =>
    match decodeOne (b :: bs) with
    | none => none
    | some (c, rest) => Option.map (fun cs => c :: cs) (utf8DecodeFuel fuel rest)

/-- UTF-8 validation/decoding of a whole byte buffer, as performed by
`String::from_utf8`: `some` of the scalar-value sequence when the buffer is
valid UTF-8, `none` otherwise. -/
def utf8Decode (bs : List Nat) : Option (List Nat) := utf8DecodeFuel bs.length bs

/-- The UTF-8 encoding of one Unicode scalar value (how a Rust `String`
stores its characters). -/
def utf8EncodeChar (c : Nat) : List Nat :=
  if c < 0x80 then [c]
  else if c < 0x800 then [0xC0 + c / 0x40, 0x80 + c % 0x40]
  else if c < 0x10000 then
    [0xE0 + c / 0x1000, 0x80 + c / 0x40 % 0x40, 0x80 + c % 0x40]
  else
    [0xF0 + c / 0x40000, 0x80 + c / 0x1000 % 0x40, 0x80 + c / 0x40 % 0x40, 0x80 + c % 0x40]

/-- The UTF-8 encoding of a sequence of Unicode scalar values: the byte
buffer backing the corresponding Rust `String`. -/
def utf8Encode (cs : List Nat) : List Nat := (cs.map utf8EncodeChar).flatten

/-- `c` is a Unicode scalar value: a code point that is not a surrogate and
is at most `U+10FFFF`.  Rust `char`s are exactly these. -/
def validScalar (c : Nat) : Prop := c < 0xD800 ∨ (0xE000 ≤ c ∧ c < 0x110000)

instance (c : Nat) : Decidable (validScalar c) := by
  unfold validScalar; infer_instance

/-- `src/error.rs`: the closed error taxonomy `StreamConverterError`.
Payloads of the underlying `io::Error` / `hyper::Error` causes are opaque
ids; `FromUtf8Error` retains the rejected bytes, as in Rust. -/
inductive StreamConverterError where
  | IoError (e : Nat)
  | EncodingError (bytes : List Nat)
  | HyperError (e : Nat)
  deriving DecidableEq, Repr

/-- A hyper `Body`, modelled as the finite sequence of poll results it
yields before signalling completion: each element is a byte chunk or a
transport failure. -/
abbrev Body := List (Except Nat (List Nat))

/-- A generic async reader, modelled as the finite sequence of results its
successive `read` calls return (after which it reports end-of-source);
each element is the filled prefix of the caller's buffer, or an I/O
failure. -/
abbrev Reader := List (Except Nat (List Nat))

/-- The `AsyncRead` contract relative to a working buffer of size `n`: every
successful read fills at most `n` bytes. -/
def readerFits (n : Nat) (r : Reader) : Bool :=
  r.all fun ev =>
    match ev with
    | Except.ok c => decide (c.length ≤ n)
    | Except.error _ => true

/-- `src/converter/convert.rs`: `StreamConverter`, holding the configured
working-buffer size. -/
structure StreamConverter where
  buffer_size : Nat
  deriving DecidableEq, Repr

/-- `StreamConverter::new`: default 8KB buffer. -/
def StreamConverter.new : StreamConverter := { buffer_size := 8192 }

/-- `StreamConverter::with_buffer_size`: any size is accepted, unvalidated. -/
def StreamConverter.with_buffer_size (buffer_size : Nat) : StreamConverter :=
  { buffer_size := buffer_size }

/-- The chunk-pull loop of `body_to_bytes`: `while let Some(chunk) =
body.next().await { ... bytes.extend_from_slice(&chunk); }` with the
accumulated buffer threaded through; a transport failure aborts with
`HyperError`, discarding the accumulator. -/
def bodyToBytesLoop (acc : List Nat) : Body → Except StreamConverterError (List Nat)
  | [] => Except.ok acc
  | Except.error e :: _ => Except.error (StreamConverterError.HyperError e)
  | Except.ok c :: rest => bodyToBytesLoop (acc ++ c) rest

/-- `StreamConverter::body_to_bytes` (`self` is unused by the source loop). -/
def StreamConverter.body_to_bytes (_self : StreamConverter) (body : Body) :
    Except StreamConverterError (List Nat) :=
  bodyToBytesLoop [] body

/-- `String::from_utf8` on the assembled buffer, as `body_to_string` applies
it: the decoded text, or `EncodingError` carrying the rejected bytes. -/
def fromUtf8 (bs : List Nat) : Except StreamConverterError (List Nat) :=
  match utf8Decode bs with
  | some cs => Except.ok cs
  | none => Except.error (StreamConverterError.EncodingError bs)

/-- `StreamConverter::body_to_string`: drain to bytes, then one whole-buffer
UTF-8 validation. -/
def StreamConverter.body_to_string (self : StreamConverter) (body : Body) :
    Except StreamConverterError (List Nat) :=
  match self.body_to_bytes body with
  | Except.ok bytes => fromUtf8 bytes
  | Except.error e => Except.error e

/-- `src/process/mod.rs`: the loop of `process_stream`, textually the same
chunk-pull loop as `body_to_bytes`. -/
def processStreamLoop (acc : List Nat) : Body → Except StreamConverterError (List Nat)
  | [] => Except.ok acc
  | Except.error e :: _ => Except.error (StreamConverterError.HyperError e)
  | Except.ok c :: rest => processStreamLoop (acc ++ c) rest

/-- `process_stream`: stand-alone drain of a hyper `Body` to bytes. -/
def process_stream (body : Body) : Except StreamConverterError (List Nat) :=
  processStreamLoop [] body

/-- The read loop of `StreamConverter::to_bytes`: each read either fails
(abort with `IoError`, discarding the accumulator), returns zero bytes
(break, returning the accumulator), or appends exactly the filled prefix
and continues.  A reader whose script is exhausted returns zero bytes. -/
def toBytesLoop (acc : List Nat) : Reader → Except StreamConverterError (List Nat)
  | [] => Except.ok acc
  | Except.error e :: _ => Except.error (StreamConverterError.IoError e)
  | Except.ok c :: rest =>
    if c.length = 0 then Except.ok acc
    else toBytesLoop (acc ++ c) rest

/-- `StreamConverter::to_bytes` over a reader honouring `readerFits
self.buffer_size` (the reader fills at most `buffer_size` bytes per read). -/
def StreamConverter.to_bytes (_self : StreamConverter) (reader : Reader) :
    Except StreamConverterError (List Nat) :=
  toBytesLoop [] reader

/-- The read loop of `StreamConverter::to_string`: as `toBytesLoop`, but
each non-empty filled prefix is UTF-8-validated on its own
(`String::from_utf8(buffer[..bytes_read].to_vec())`) before its text is
appended; an invalid chunk aborts with `EncodingError`. -/
def toStringLoop (acc : List Nat) : Reader → Except StreamConverterError (List Nat)
  | [] => Except.ok acc
  | Except.error e :: _ => Except.error (StreamConverterError.IoError e)
  | Except.ok c :: rest =>
    if c.length = 0 then Except.ok acc
    else
      match utf8Decode c with
      | none => Except.error (StreamConverterError.EncodingError c)
      | some cs => toStringLoop (acc ++ cs) rest

/-- `StreamConverter::to_string` over a reader honouring `readerFits
self.buffer_size`. -/
def StreamConverter.to_string (_self : StreamConverter) (reader : Reader) :
    Except StreamConverterError (List Nat) :=
  toStringLoop [] reader

/-- `src/util/mod.rs`: `bytes_to_string`, i.e.
`String::from_utf8(bytes.to_vec()).ok()`. -/
def bytes_to_string (bytes : List Nat) : Option (List Nat) := utf8Decode bytes

/-- `src/util/mod.rs`: `concat_bytes`, a fold extending an initially empty
vector with each chunk in input order. -/
def concat_bytes (chunks : List (List Nat)) : List Nat :=
  chunks.foldl (fun result chunk => result ++ chunk) []

/-- `src/util/mod.rs`: `default_buffer_size`. -/
def default_buffer_size : Nat := 8192

/-! ## Helper lemmas about the drain loops -/

lemma bodyToBytesLoop_map_ok (chunks : List (List Nat)) :
    ∀ acc, bodyToBytesLoop acc (chunks.map Except.ok) = Except.ok (acc ++ chunks.flatten) := by
  induction chunks with
  | nil => intro acc; simp [bodyToBytesLoop]
  | cons c rest ih =>
      intro acc
      simp only [List.map_cons, bodyToBytesLoop, ih, List.flatten_cons, List.append_assoc]

lemma bodyToBytesLoop_err (chunks : List (List Nat)) (e : Nat) (tail : Body) :
    ∀ acc, bodyToBytesLoop acc (chunks.map Except.ok ++ Except.error e :: tail) =
      Except.error (StreamConverterError.HyperError e) := by
  induction chunks with
  | nil => intro acc; simp [bodyToBytesLoop]
  | cons c rest ih => intro acc; simpa [bodyToBytesLoop] using ih (acc ++ c)

lemma processStreamLoop_eq_bodyToBytesLoop (body : Body) :
    ∀ acc, processStreamLoop acc body = bodyToBytesLoop acc body := by
  induction body with
  | nil => intro acc; rfl
  | cons ev rest ih =>
      intro acc
      cases ev with
      | error e => rfl
      | ok c => simpa [processStreamLoop, bodyToBytesLoop] using ih (acc ++ c)

lemma toBytesLoop_map_ok (chunks : List (List Nat)) (hne : ∀ c ∈ chunks, c.length ≠ 0) :
    ∀ acc, toBytesLoop acc (chunks.map Except.ok) = Except.ok (acc ++ chunks.flatten) := by
  induction chunks with
  | nil => intro acc; simp [toBytesLoop]
  | cons c rest ih =>
      intro acc
      have hc : c.length ≠ 0 := hne c (by simp)
      have ih2 := ih (fun d hd => hne d (by simp [hd]))
      simp only [List.map_cons, toBytesLoop, if_neg hc, ih2, List.flatten_cons,
        List.append_assoc]

lemma toBytesLoop_break (chunks : List (List Nat)) (hne : ∀ c ∈ chunks, c.length ≠ 0)
    (tail : Reader) :
    ∀ acc, toBytesLoop acc (chunks.map Except.ok ++ Except.ok [] :: tail) =
      Except.ok (acc ++ chunks.flatten) := by
  induction chunks with
  | nil => intro acc; simp [toBytesLoop]
  | cons c rest ih =>
      intro acc
      have hc : c.length ≠ 0 := hne c (by simp)
      have ih2 := ih (fun d hd => hne d (by simp [hd]))
      simp only [List.map_cons, List.cons_append, toBytesLoop, if_neg hc, List.append_eq,
        ih2, List.flatten_cons, List.append_assoc]

lemma toBytesLoop_err (chunks : List (List Nat)) (hne : ∀ c ∈ chunks, c.length ≠ 0)
    (e : Nat) (tail : Reader) :
    ∀ acc, toBytesLoop acc (chunks.map Except.ok ++ Except.error e :: tail) =
      Except.error (StreamConverterError.IoError e) := by
  induction chunks with
  | nil => intro acc; simp [toBytesLoop]
  | cons c rest ih =>
      intro acc
      have hc : c.length ≠ 0 := hne c (by simp)
      have ih2 := ih (fun d hd => hne d (by simp [hd]))
      simp only [List.map_cons, List.cons_append, toBytesLoop, if_neg hc, List.append_eq,
        ih2]

lemma foldl_append_eq_flatten (chunks : List (List Nat)) :
    ∀ acc : List Nat, chunks.foldl (fun result chunk => result ++ chunk) acc =
      acc ++ chunks.flatten := by
  induction chunks with
  | nil => intro acc; simp
  | cons c rest ih => intro acc; simp [List.foldl_cons, ih, List.append_assoc]

/-! ## Helper lemmas about UTF-8 decoding and encoding -/

lemma decodeOne_length {bs rest : List Nat} {c : Nat}
    (h : decodeOne bs = some (c, rest)) : rest.length < bs.length := by
  unfold decodeOne at h
  repeat' split at h
  all_goals try exact Option.noConfusion h
  all_goals
    injection h with h1
    injection h1 with h2 h3
    subst h3
    simp [List.length_cons]
  all_goals omega

lemma utf8DecodeFuel_congr :
    ∀ f1 f2 bs, bs.length ≤ f1 → bs.length ≤ f2 →
      utf8DecodeFuel f1 bs = utf8DecodeFuel f2 bs := by
  intro f1
  induction f1 with
  | zero =>
      intro f2 bs h1 _
      have hbs : bs = [] := List.length_eq_zero.mp (Nat.le_zero.mp h1)
      subst hbs
      cases f2 <;> rfl
  | succ n ih =>
      intro f2 bs h1 h2
      cases bs with
      | nil => cases f2 <;> rfl
      | cons b bs0 =>
          cases f2 with
          | zero => simp at h2
          | succ m =>
              simp only [utf8DecodeFuel]
              cases hd : decodeOne (b :: bs0) with
              | none => rfl
              | some p =>
                  obtain ⟨c, rest⟩ := p
                  have hlt := decodeOne_length hd
                  simp only [List.length_cons] at h1 h2 hlt
                  dsimp only
                  rw [ih m rest (by omega) (by omega)]

lemma utf8Decode_cons (b : Nat) (bs : List Nat) :
    utf8Decode (b :: bs) =
      match decodeOne (b :: bs) with
      | none => none
      | some (c, rest) => Option.map (fun cs => c :: cs) (utf8Decode rest) := by
  show utf8DecodeFuel (b :: bs).length (b :: bs) = _
  simp only [List.length_cons, utf8DecodeFuel]
  cases hd : decodeOne (b :: bs) with
  | none => rfl
  | some p =>
      obtain ⟨c, rest⟩ := p
      have hlt := decodeOne_length hd
      simp only [List.length_cons] at hlt
      show Option.map _ (utf8DecodeFuel bs.length rest) = Option.map _ (utf8Decode rest)
      rw [utf8DecodeFuel_congr bs.length rest.length rest (by omega) (by omega)]
      rfl

set_option maxRecDepth 4000 in
lemma decodeOne_spec {bs rest : List Nat} {c : Nat}
    (h : decodeOne bs = some (c, rest)) :
    utf8EncodeChar c ++ rest = bs ∧ validScalar c := by
  unfold decodeOne at h
  repeat' split at h
  all_goals try exact Option.noConfusion h
  all_goals
    injection h with h1
    injection h1 with h2 h3
    subst h2
    subst h3
    unfold validScalar
    constructor
  all_goals try omega
  all_goals unfold utf8EncodeChar
  all_goals repeat' split
  all_goals
    first
    | rfl
    | (simp only [List.cons_append, List.nil_append, List.singleton_append,
        List.cons.injEq, and_true, true_and, List.append_eq]
       first
       | rfl
       | omega)

lemma encodeChar_decodeOne (c : Nat) (hv : validScalar c) (rest : List Nat) :
    decodeOne (utf8EncodeChar c ++ rest) = some (c, rest) := by
  unfold validScalar at hv
  unfold utf8EncodeChar
  by_cases h1 : c < 0x80
  · rw [if_pos h1]
    simp only [List.singleton_append]
    unfold decodeOne
    dsimp only
    rw [if_pos h1]
  · rw [if_neg h1]
    by_cases h2 : c < 0x800
    · rw [if_pos h2]
      simp only [List.cons_append, List.nil_append]
      unfold decodeOne
      dsimp only
      rw [if_neg (by omega), if_neg (by omega), if_pos (by omega), if_pos (by omega)]
      simp only [Option.some.injEq, Prod.mk.injEq, and_true]
      omega
    · rw [if_neg h2]
      by_cases h3 : c < 0x10000
      · rw [if_pos h3]
        simp only [List.cons_append, List.nil_append]
        unfold decodeOne
        dsimp only
        rw [if_neg (by omega), if_neg (by omega), if_neg (by omega), if_pos (by omega),
          if_pos (by omega), if_pos (by omega)]
        simp only [Option.some.injEq, Prod.mk.injEq, and_true]
        omega
      · rw [if_neg h3]
        simp only [List.cons_append, List.nil_append]
        unfold decodeOne
        dsimp only
        rw [if_neg (by omega), if_neg (by omega), if_neg (by omega), if_neg (by omega),
          if_pos (by omega), if_pos (by omega), if_pos (by omega)]
        simp only [Option.some.injEq, Prod.mk.injEq, and_true]
        omega

lemma utf8Encode_append (a b : List Nat) :
    utf8Encode (a ++ b) = utf8Encode a ++ utf8Encode b := by
  simp [utf8Encode]

lemma utf8Decode_inv : ∀ bs cs : List Nat, utf8Decode bs = some cs → utf8Encode cs = bs
  | [], cs, h => by
      have hcs : some ([] : List Nat) = some cs := h
      injection hcs with hcs
      subst hcs
      rfl
  | b :: bs0, cs, h => by
      rw [utf8Decode_cons] at h
      cases hd : decodeOne (b :: bs0) with
      | none => rw [hd] at h; exact Option.noConfusion h
      | some p =>
          obtain ⟨c, rest⟩ := p
          rw [hd] at h
          dsimp only at h
          cases hr : utf8Decode rest with
          | none => rw [hr] at h; exact Option.noConfusion h
          | some cs0 =>
              rw [hr] at h
              have hcs : c :: cs0 = cs := by simpa using h
              subst hcs
              have hlt := decodeOne_length hd
              have ih := utf8Decode_inv rest cs0 hr
              have hspec := decodeOne_spec hd
              calc utf8Encode (c :: cs0)
                  = utf8EncodeChar c ++ utf8Encode cs0 := by simp [utf8Encode]
                _ = utf8EncodeChar c ++ rest := by rw [ih]
                _ = b :: bs0 := hspec.1
termination_by bs _ _ => bs.length

lemma encodeChar_ne_nil (c : Nat) : ∃ b t, utf8EncodeChar c = b :: t := by
  unfold utf8EncodeChar
  repeat' split
  all_goals exact ⟨_, _, rfl⟩

lemma utf8Decode_encode (cs : List Nat) (h : ∀ c ∈ cs, validScalar c) :
    utf8Decode (utf8Encode cs) = some cs := by
  induction cs with
  | nil => rfl
  | cons c cs0 ih =>
      have hc : validScalar c := h c (by simp)
      have hrest := ih (fun d hd => h d (by simp [hd]))
      have henc : utf8Encode (c :: cs0) = utf8EncodeChar c ++ utf8Encode cs0 := by
        simp [utf8Encode]
      rw [henc]
      have hdec := encodeChar_decodeOne c hc (utf8Encode cs0)
      obtain ⟨b, t, hbt⟩ := encodeChar_ne_nil c
      rw [hbt, List.cons_append, utf8Decode_cons, ← List.cons_append, ← hbt, hdec]
      dsimp only
      rw [hrest]
      rfl

lemma loops_agree (chunks : List (List Nat)) :
    ∀ accS, (∀ c ∈ chunks, (utf8Decode c).isSome) →
      ∃ cs, toStringLoop accS (chunks.map Except.ok) = Except.ok cs ∧
        toBytesLoop (utf8Encode accS) (chunks.map Except.ok) = Except.ok (utf8Encode cs) := by
  induction chunks with
  | nil => intro accS _; exact ⟨accS, rfl, rfl⟩
  | cons c rest ih =>
      intro accS h
      by_cases hc : c.length = 0
      · exact ⟨accS, by simp [toStringLoop, hc], by simp [toBytesLoop, hc]⟩
      · have hdec : (utf8Decode c).isSome := h c (by simp)
        obtain ⟨ds, hds⟩ := Option.isSome_iff_exists.mp hdec
        have henc : utf8Encode ds = c := utf8Decode_inv c ds hds
        obtain ⟨cs, h1, h2⟩ := ih (accS ++ ds) (fun d hd => h d (by simp [hd]))
        refine ⟨cs, ?_, ?_⟩
        · simp only [List.map_cons, toStringLoop, if_neg hc, hds]
          exact h1
        · simp only [List.map_cons, toBytesLoop, if_neg hc]
          have hco : utf8Encode accS ++ c = utf8Encode (accS ++ ds) := by
            rw [utf8Encode_append, henc]
          rw [hco]
          exact h2

/-! ## Claim theorems -/

/-- Claim C1: for every finite chunk source yielding chunks without error
whose concatenation is valid UTF-8, `body_to_string` returns that
concatenation decoded as text; moreover `body_to_string` is exactly
`body_to_bytes` followed by one whole-buffer UTF-8 validation, so a
multi-byte code point split across adjacent chunks is never an error
(the witness instantiates the chunks `[0xE2, 0x82]` and `[0xAC]` forming
the euro sign). -/
theorem C1_body_to_string_whole_buffer_validation (sc : StreamConverter)
    (chunks : List (List Nat)) (cs : List Nat)
    (h : utf8Decode chunks.flatten = some cs) :
    sc.body_to_string (chunks.map Except.ok) = Except.ok cs ∧
    ∀ body : Body, sc.body_to_string body =
      (match sc.body_to_bytes body with
       | Except.ok bytes => fromUtf8 bytes
       | Except.error e => Except.error e) := by
  constructor
  · show (match bodyToBytesLoop [] (chunks.map Except.ok) with
      | Except.ok bytes => fromUtf8 bytes
      | Except.error e => Except.error e) = Except.ok cs
    rw [bodyToBytesLoop_map_ok chunks []]
    show fromUtf8 ([] ++ chunks.flatten) = Except.ok cs
    rw [List.nil_append]
    unfold fromUtf8
    rw [h]
  · intro body
    rfl

/-- Witness for C1: the euro sign split as `[0xE2, 0x82]` then `[0xAC]`
decodes successfully to U+20AC on the chunk-source path. -/
theorem C1_witness :
    utf8Decode ([[0xE2, 0x82], [0xAC]] : List (List Nat)).flatten = some [0x20AC] ∧
    StreamConverter.new.body_to_string ([[0xE2, 0x82], [0xAC]].map Except.ok) =
      Except.ok [0x20AC] :=
  ⟨rfl, (C1_body_to_string_whole_buffer_validation StreamConverter.new
    [[0xE2, 0x82], [0xAC]] [0x20AC] rfl).1⟩

/-- Claim C2: `to_string` validates each read chunk separately, so a reader
whose overall stream `[0xE2, 0x82] ++ [0xAC]` is valid UTF-8 but whose read
boundary splits the code point fails with an encoding error, in contrast
with the chunk-source path on the same data. -/
theorem C2_to_string_per_chunk_validation_asymmetry :
    StreamConverter.new.to_string [Except.ok [0xE2, 0x82], Except.ok [0xAC]] =
      Except.error (StreamConverterError.EncodingError [0xE2, 0x82]) ∧
    utf8Decode ([0xE2, 0x82] ++ [0xAC]) = some [0x20AC] ∧
    readerFits StreamConverter.new.buffer_size
      [Except.ok [0xE2, 0x82], Except.ok [0xAC]] = true ∧
    StreamConverter.new.body_to_string [Except.ok [0xE2, 0x82], Except.ok [0xAC]] =
      Except.ok [0x20AC] :=
  ⟨rfl, rfl, rfl, rfl⟩

/-- Claim C3: draining a chunk source that yields chunks `c1 .. cn` and then
completes returns exactly their in-order concatenation. -/
theorem C3_body_to_bytes_ordered_concat (sc : StreamConverter)
    (chunks : List (List Nat)) :
    sc.body_to_bytes (chunks.map Except.ok) = Except.ok chunks.flatten := by
  show bodyToBytesLoop [] (chunks.map Except.ok) = Except.ok chunks.flatten
  rw [bodyToBytesLoop_map_ok chunks []]
  rw [List.nil_append]

/-- Claim C4: a transport failure on any pull (after any prefix of
successful chunks) makes both `body_to_bytes` and `body_to_string` abort
with a `HyperError`; the accumulated bytes are discarded. -/
theorem C4_transport_error_abort_discard (sc : StreamConverter)
    (chunks : List (List Nat)) (e : Nat) (tail : Body) :
    sc.body_to_bytes (chunks.map Except.ok ++ Except.error e :: tail) =
      Except.error (StreamConverterError.HyperError e) ∧
    sc.body_to_string (chunks.map Except.ok ++ Except.error e :: tail) =
      Except.error (StreamConverterError.HyperError e) := by
  have hb := bodyToBytesLoop_err chunks e tail []
  constructor
  · exact hb
  · show (match bodyToBytesLoop [] (chunks.map Except.ok ++ Except.error e :: tail) with
      | Except.ok bytes => fromUtf8 bytes
      | Except.error e => Except.error e) = _
    rw [hb]

/-- Claim C5: the reader drain loop requests at most `buffer_size` bytes per
read; a zero-length read terminates the loop with the accumulated result,
each non-zero read appends exactly its filled prefix, and a failing read
aborts with an I/O error, discarding the partial result. -/
theorem C5_to_bytes_read_loop (sc : StreamConverter) (chunks : List (List Nat))
    (h : ∀ c ∈ chunks, 0 < c.length ∧ c.length ≤ sc.buffer_size) :
    (∀ tail : Reader,
      sc.to_bytes (chunks.map Except.ok ++ Except.ok [] :: tail) =
        Except.ok chunks.flatten) ∧
    sc.to_bytes (chunks.map Except.ok) = Except.ok chunks.flatten ∧
    (∀ (e : Nat) (tail : Reader),
      sc.to_bytes (chunks.map Except.ok ++ Except.error e :: tail) =
        Except.error (StreamConverterError.IoError e)) := by
  have hne : ∀ c ∈ chunks, c.length ≠ 0 := by
    intro c hc
    have := (h c hc).1
    omega
  refine ⟨fun tail => ?_, ?_, fun e tail => ?_⟩
  · simpa using toBytesLoop_break chunks hne tail []
  · simpa using toBytesLoop_map_ok chunks hne []
  · simpa using toBytesLoop_err chunks hne e tail []

/-- Witness for C5: a single two-byte read within the default buffer size. -/
theorem C5_witness :
    (∀ c ∈ ([[72, 105]] : List (List Nat)),
      0 < c.length ∧ c.length ≤ StreamConverter.new.buffer_size) ∧
    StreamConverter.new.to_bytes ([[72, 105]].map Except.ok) = Except.ok [72, 105] :=
  ⟨by decide,
    (C5_to_bytes_read_loop StreamConverter.new [[72, 105]] (by decide)).2.1⟩

/-- Claim C6: the stand-alone `process_stream` agrees with
`body_to_bytes` of any `StreamConverter` on every chunk source, success and
failure alike; the configured buffer size has no effect on this path. -/
theorem C6_process_stream_equivalent (sc : StreamConverter) (body : Body) :
    process_stream body = sc.body_to_bytes body :=
  processStreamLoop_eq_bodyToBytesLoop body []

/-- Claim C7: `with_buffer_size 0` is accepted without validation, and on
the generic-reader path a buffer size of 0 makes the drain loop
non-progressing: any conforming reader yields either an empty result or an
immediate I/O error from the very first read; no bytes are ever consumed. -/
theorem C7_zero_buffer_size_degenerate (r : Reader) (h : readerFits 0 r = true) :
    (StreamConverter.with_buffer_size 0).buffer_size = 0 ∧
    ((StreamConverter.with_buffer_size 0).to_bytes r = Except.ok [] ∨
      ∃ e tail, r = Except.error e :: tail ∧
        (StreamConverter.with_buffer_size 0).to_bytes r =
          Except.error (StreamConverterError.IoError e)) := by
  refine ⟨rfl, ?_⟩
  cases r with
  | nil => exact Or.inl rfl
  | cons ev tail =>
      cases ev with
      | error e => exact Or.inr ⟨e, tail, rfl, rfl⟩
      | ok c =>
          left
          simp only [readerFits, List.all_cons, Bool.and_eq_true, decide_eq_true_eq] at h
          have hc : c.length = 0 := by omega
          show toBytesLoop [] (Except.ok c :: tail) = Except.ok []
          simp [toBytesLoop, hc]

/-- Witness for C7: a reader whose single read returns zero bytes conforms
to buffer size 0 and drains to the empty result. -/
theorem C7_witness :
    readerFits 0 [Except.ok []] = true ∧
    ((StreamConverter.with_buffer_size 0).buffer_size = 0 ∧
      ((StreamConverter.with_buffer_size 0).to_bytes [Except.ok []] = Except.ok [] ∨
        ∃ e tail, [Except.ok ([] : List Nat)] = Except.error e :: tail ∧
          (StreamConverter.with_buffer_size 0).to_bytes [Except.ok []] =
            Except.error (StreamConverterError.IoError e))) :=
  ⟨rfl, C7_zero_buffer_size_degenerate [Except.ok []] rfl⟩

/-- Claim C8: `bytes_to_string` is a pure total function: on every valid
UTF-8 input (the encoding of any scalar-value sequence) it returns the
exact decoded text, and on invalid UTF-8 such as `[0xFF, 0xFF, 0xFF]` it
returns `none` rather than an error. -/
theorem C8_bytes_to_string_total :
    (∀ cs : List Nat, (∀ c ∈ cs, validScalar c) →
      bytes_to_string (utf8Encode cs) = some cs) ∧
    bytes_to_string [0xFF, 0xFF, 0xFF] = none := by
  constructor
  · intro cs h
    exact utf8Decode_encode cs h
  · rfl

/-- Witness for C8: the two-character text `H€` round-trips through its
UTF-8 bytes. -/
theorem C8_witness :
    (∀ c ∈ ([0x48, 0x20AC] : List Nat), validScalar c) ∧
    bytes_to_string (utf8Encode [0x48, 0x20AC]) = some [0x48, 0x20AC] :=
  ⟨by decide, C8_bytes_to_string_total.1 [0x48, 0x20AC] (by decide)⟩

/-- Claim C9: `concat_bytes` of the empty list is empty, `concat_bytes
[A, B, C] = A ++ B ++ C`, and in general it returns the in-order
concatenation of its chunks, preserving every byte. -/
theorem C9_concat_bytes_order_preserving :
    concat_bytes ([] : List (List Nat)) = [] ∧
    (∀ A B C : List Nat, concat_bytes [A, B, C] = A ++ B ++ C) ∧
    (∀ chunks : List (List Nat), concat_bytes chunks = chunks.flatten) := by
  refine ⟨rfl, fun A B C => ?_, fun chunks => ?_⟩
  · show [A, B, C].foldl (fun result chunk => result ++ chunk) [] = A ++ B ++ C
    rw [foldl_append_eq_flatten]
    simp
  · show chunks.foldl (fun result chunk => result ++ chunk) [] = chunks.flatten
    rw [foldl_append_eq_flatten]
    rw [List.nil_append]

/-- Claim C10: whenever every read of a reader succeeds and each filled
prefix is on its own valid UTF-8, `to_string` succeeds and returns exactly
the text whose UTF-8 encoding is the byte vector `to_bytes` returns on the
same read sequence. -/
theorem C10_reader_paths_agree (sc : StreamConverter) (chunks : List (List Nat))
    (_hfit : readerFits sc.buffer_size (chunks.map Except.ok) = true)
    (h : ∀ c ∈ chunks, (utf8Decode c).isSome = true) :
    ∃ cs, sc.to_string (chunks.map Except.ok) = Except.ok cs ∧
      sc.to_bytes (chunks.map Except.ok) = Except.ok (utf8Encode cs) := by
  have hagree := loops_agree chunks [] h
  simpa [StreamConverter.to_string, StreamConverter.to_bytes] using hagree

/-- Witness for C10: a single read containing the whole euro sign is
per-read valid, and the two reader-path operations agree on it. -/
theorem C10_witness :
    readerFits StreamConverter.new.buffer_size
      ([[0xE2, 0x82, 0xAC]].map Except.ok) = true ∧
    (∀ c ∈ ([[0xE2, 0x82, 0xAC]] : List (List Nat)), (utf8Decode c).isSome = true) ∧
    ∃ cs, StreamConverter.new.to_string ([[0xE2, 0x82, 0xAC]].map Except.ok) =
        Except.ok cs ∧
      StreamConverter.new.to_bytes ([[0xE2, 0x82, 0xAC]].map Except.ok) =
        Except.ok (utf8Encode cs) :=
  ⟨rfl, by decide,
    C10_reader_paths_agree StreamConverter.new [[0xE2, 0x82, 0xAC]] rfl (by decide)⟩

end BStb
